import Mathlib

/-!
Shallow embedding of `torchsh/symbolic/codegen.py` from the
torch-spherical-harmonics repository, together with proofs about its
instruction-derivation and code-emission pipeline.

The external closed-form provider (the `Ylm` symbolic closed form from the
`rsh` module, numerically evaluated by `sympy.N`) and sympy's code printer
`sympy.pycode` are external collaborators of the code under study; the
development is parameterized over them: `ylmN n m` stands for the symbolic
expression `sympy.N(Ylm(n, m, x, y, z))` and `pycode e` stands for
`sympy.pycode(e)`.  Everything the repository itself does — the monomial
substitution table, the per-degree instruction loop, the degree-0 broadcast
wrapping, the routine and document templates, and the CLI generation path —
is embedded directly from the source.
-/

namespace Codegen

/-- Variables appearing in harmonic expressions: the three Cartesian
coordinates `x, y, z` and the six fresh substitution symbols
`x2, y2, z2, xy, xz, yz` introduced by the `_subs` table. -/
inductive SymVar : Type
  | x | y | z | x2 | y2 | z2 | xy | xz | yz
deriving DecidableEq, Repr

/-- Symbolic polynomial expressions over `SymVar`, the fragment of sympy
expressions relevant to the harmonic closed forms: numeric constants,
variables, sums, products and natural powers. -/
inductive SymExpr : Type
  | const : ℚ → SymExpr
  | var : SymVar → SymExpr
  | add : SymExpr → SymExpr → SymExpr
  | mul : SymExpr → SymExpr → SymExpr
  | pow : SymExpr → Nat → SymExpr
deriving DecidableEq, Repr

/-- Numeric evaluation of a symbolic expression in an environment assigning
a rational value to every variable. -/
def SymExpr.eval (env : SymVar → ℚ) : SymExpr → ℚ
  | .const q => q
  | .var v => env v
  | .add a b => a.eval env + b.eval env
  | .mul a b => a.eval env * b.eval env
  | .pow a n => (a.eval env) ^ n

/-- The fixed substitution table `_subs` of `codegen.py`: the six
quadratic/cross monomials in `x, y, z` mapped to their fresh symbols. -/
def _subs : List (SymExpr × SymExpr) :=
  [ (.pow (.var .x) 2, .var .x2),
    (.pow (.var .y) 2, .var .y2),
    (.pow (.var .z) 2, .var .z2),
    (.mul (.var .x) (.var .y), .var .xy),
    (.mul (.var .x) (.var .z), .var .xz),
    (.mul (.var .y) (.var .z), .var .yz) ]

/-- Look an expression up in the `_subs` table (the per-node matching step
of sympy's `Expr.subs` on that table). -/
def subsLookup (e : SymExpr) : Option SymExpr :=
  (_subs.find? (fun p => decide (p.1 = e))).map Prod.snd

/-- `_substitute` of `codegen.py`: `f.subs(_subs)`, replacing every subterm
that matches one of the six monomials of `_subs` by its fresh symbol
(matched nodes are replaced outright, all other nodes recurse into their
children). -/
def _substitute : SymExpr → SymExpr
  | .const q => (subsLookup (.const q)).getD (.const q)
  | .var v => (subsLookup (.var v)).getD (.var v)
  | .add a b =>
    (subsLookup (.add a b)).getD (.add (_substitute a) (_substitute b))
  | .mul a b =>
    (subsLookup (.mul a b)).getD (.mul (_substitute a) (_substitute b))
  | .pow a n =>
    (subsLookup (.pow a n)).getD (.pow (_substitute a) n)

/-- An environment is consistent when the six substitution symbols carry
exactly the values of the monomials they abbreviate
(`x2 = x*x`, …, `yz = y*z`). -/
def consistentEnv (env : SymVar → ℚ) : Prop :=
  env .x2 = env .x * env .x ∧ env .y2 = env .y * env .y ∧
  env .z2 = env .z * env .z ∧ env .xy = env .x * env .y ∧
  env .xz = env .x * env .z ∧ env .yz = env .y * env .z

/-- A single apostrophe character, used by the Python string templates. -/
def apos : String := String.singleton (Char.ofNat 39)

/-- `header_tpl` of `codegen.py`: the fixed autogenerated-file header
comment block. -/
def header_tpl : String :=
  "\n" ++ apos ++ apos ++ apos ++
  "Real spherical harmonics in Cartesian form for PyTorch.\n\nThis is an autogenerated file. See\nhttps://github.com/cheind/torch-spherical-harmonics\nfor more information.\n"
  ++ apos ++ apos ++ apos ++ "\n"

/-- `import_tpl` of `codegen.py`: the fixed import preamble of generated
documents. -/
def import_tpl : String := "\nimport torch\n"

/-- `method_tpl.format(degree=..., ynms=...)` of `codegen.py`: the routine
template with both `degree` occurrences and the `ynms` hole filled in. -/
def method_tpl (degree : Nat) (ynms : String) : String :=
  "\ndef rsh_cart_" ++ toString degree ++ "(xyz:torch.Tensor):\n    " ++
  apos ++ apos ++ apos ++
  "Computes all real spherical harmonics up to " ++ toString degree ++
  " degree.\n\n    This is an autogenerated method. See\n    https://github.com/cheind/torch-spherical-harmonics\n    for more information.\n\n    Params:\n        xyz: (N,...,3) tensor of points on the unit sphere\n    \n    Returns:\n        rsh: (N,...,K) real spherical harmonics projections of input.\n    "
  ++ apos ++ apos ++ apos ++
  "\n\n    x = xyz[...,0]\n    y = xyz[...,1]\n    z = xyz[...,2]\n\n    x2=x**2\n    y2=y**2\n    z2=z**2\n    xy=x*y\n    xz=x*z\n    yz=y*z\n\n    return torch.stack(\n        ["
  ++ ynms ++ "]\n        ,-1\n    )    \n"

/-- `generate_ynm_instructions(max_degree, start_degree)` of `codegen.py`:
for each degree `n` in `range(start_degree, max_degree)` and each order `m`
in `range(-n, n + 1)`, serialize `_substitute(sympy.N(Ylm(n, m, x, y, z)))`
to code text, wrapping the degree-0 instruction in the batch-shape
broadcast; `ylmN` and `pycode` are the external sympy collaborators. -/
def generate_ynm_instructions (ylmN : Nat → Int → SymExpr)
    (pycode : SymExpr → String) (max_degree : Nat) (start_degree : Nat) :
    List (List String) :=
  (List.range' start_degree (max_degree - start_degree)).map fun n =>
    (List.range (2 * n + 1)).map fun (i : Nat) =>
      let m : Int := (i : Int) - (n : Int)
      let ylmstr := pycode (_substitute (ylmN n m))
      if n = 0 then
        "xyz.new_tensor(" ++ ylmstr ++ ").expand(xyz.shape[:-1])"
      else
        ylmstr

/-- The flattened instruction list `[item for sublist in ynm_instr[:degree]
for item in sublist]` built inside `generate_ynm_method`. -/
def method_ynms (ynm_instr : List (List String)) (degree : Nat) :
    List String :=
  (ynm_instr.take degree).flatten

/-- `generate_ynm_method(ynm_instr, degree)` of `codegen.py`: the source
text of the `rsh_cart_{degree}` routine, stacking the flattened
instructions of the first `degree` bands. -/
def generate_ynm_method (ynm_instr : List (List String)) (degree : Nat) :
    String :=
  method_tpl degree (String.intercalate "," (method_ynms ynm_instr degree))

/-- `generate_ynm_file(ynm_instr, degrees)` of `codegen.py`: header block
and the fixed preamble followed by one routine per requested degree, joined
with newlines; the loop appends one routine per degree to
`content_parts`. -/
def generate_ynm_file (ynm_instr : List (List String))
    (degrees : List Nat) : String :=
  let content_parts :=
    degrees.foldl (fun acc d => acc ++ [generate_ynm_method ynm_instr d])
      [header_tpl, import_tpl]
  String.intercalate "\n" content_parts

/-- The document built by the `__main__` block of `codegen.py` (before the
external `black` formatting step): instructions are derived for
`max_degree=8, start_degree=0` and the file is generated for degrees
`[2, 4, 8]`; the parsed `-n`/`--degree` flag value is a parameter here
because the CLI parses it, but the generation path never reads it. -/
def main_emitted_document (ylmN : Nat → Int → SymExpr)
    (pycode : SymExpr → String) (degreeFlag : String) : String :=
  let instr := generate_ynm_instructions ylmN pycode 8 0
  generate_ynm_file instr [2, 4, 8]

/-- The message of the exception raised by the `try/except ImportError`
guard around `import sympy` at the top of `codegen.py`. -/
def sympy_import_error : String :=
  "Failed to import sympy\n. You need `pip install sympy` for this part of the code."

/-- The API surface the `codegen` module exposes once it has loaded. -/
structure CodegenModule where
  instructions : (Nat → Int → SymExpr) → (SymExpr → String) → Nat → Nat →
    List (List String)
  method : List (List String) → Nat → String
  toFile : List (List String) → List Nat → String

/-- Loading the `codegen` module: the `try: import sympy / except
ImportError: raise Exception(...)` guard runs at module load time, before
any definition of the module exists; when sympy is unavailable the load
fails with `sympy_import_error` and no API is produced. -/
def load_codegen (sympyAvailable : Bool) :
    Except String CodegenModule :=
  if sympyAvailable then
    .ok ⟨generate_ynm_instructions, generate_ynm_method, generate_ynm_file⟩
  else
    .error sympy_import_error

/-- The instruction text `generate_ynm_instructions` produces for the pair
`(n, m)`: the serialized substituted closed form, broadcast-wrapped exactly
when `n = 0`. -/
def ynm_instruction (ylmN : Nat → Int → SymExpr) (pycode : SymExpr → String)
    (n : Nat) (m : Int) : String :=
  let s := pycode (_substitute (ylmN n m))
  if n = 0 then "xyz.new_tensor(" ++ s ++ ").expand(xyz.shape[:-1])" else s

/-! ### Helper lemmas about the instruction table -/

theorem gen_length (ylmN : Nat → Int → SymExpr) (pycode : SymExpr → String)
    (max start : Nat) :
    (generate_ynm_instructions ylmN pycode max start).length = max - start := by
  simp [generate_ynm_instructions]

theorem gen_band (ylmN : Nat → Int → SymExpr) (pycode : SymExpr → String)
    (max start i : Nat)
    (hi : i < (generate_ynm_instructions ylmN pycode max start).length) :
    (generate_ynm_instructions ylmN pycode max start).get ⟨i, hi⟩
      = (List.range (2 * (start + i) + 1)).map
          (fun (j : Nat) => ynm_instruction ylmN pycode (start + i)
            ((j : Int) - (start + i))) := by
  simp [generate_ynm_instructions, ynm_instruction, List.get_eq_getElem]

theorem gen_band_length (ylmN : Nat → Int → SymExpr)
    (pycode : SymExpr → String) (max start i : Nat)
    (hi : i < (generate_ynm_instructions ylmN pycode max start).length) :
    ((generate_ynm_instructions ylmN pycode max start).get ⟨i, hi⟩).length
      = 2 * (start + i) + 1 := by
  rw [gen_band]
  rw [List.length_map, List.length_range]

theorem method_ynms_length (ylmN : Nat → Int → SymExpr)
    (pycode : SymExpr → String) (max d : Nat) (h : d ≤ max) :
    (method_ynms (generate_ynm_instructions ylmN pycode max 0) d).length
      = d * d := by
  induction d with
  | zero => simp [method_ynms]
  | succ k ih =>
    have hk : k ≤ max := Nat.le_of_succ_le h
    have hklen : k < (generate_ynm_instructions ylmN pycode max 0).length := by
      rw [gen_length]; omega
    have hsome : (generate_ynm_instructions ylmN pycode max 0)[k]?
        = some ((generate_ynm_instructions ylmN pycode max 0).get ⟨k, hklen⟩) := by
      rw [List.getElem?_eq_getElem hklen, List.get_eq_getElem]
    rw [method_ynms, List.take_succ, List.flatten_append, List.length_append,
      hsome]
    have hband := gen_band_length ylmN pycode max 0 k hklen
    rw [← method_ynms, ih hk]
    simp only [Option.toList_some, List.flatten_cons, List.flatten_nil,
      List.append_nil, hband]
    ring

theorem gen_entry (ylmN : Nat → Int → SymExpr) (pycode : SymExpr → String)
    (max start i j : Nat)
    (hi : i < (generate_ynm_instructions ylmN pycode max start).length)
    (hj : j < ((generate_ynm_instructions ylmN pycode max start).get
      ⟨i, hi⟩).length) :
    ((generate_ynm_instructions ylmN pycode max start).get ⟨i, hi⟩).get
        ⟨j, hj⟩
      = ynm_instruction ylmN pycode (start + i)
          ((j : Int) - ((start + i : Nat) : Int)) := by
  simp only [List.get_eq_getElem]
  simp [generate_ynm_instructions, ynm_instruction]

theorem gen_flatten_entry (ylmN : Nat → Int → SymExpr)
    (pycode : SymExpr → String) (max n : Nat) (m : Int) (hn : n < max)
    (hm1 : -(n : Int) ≤ m) (hm2 : m ≤ (n : Int)) :
    ((generate_ynm_instructions ylmN pycode max 0).flatten)[n * n +
        (m + n).toNat]?
      = some (ynm_instruction ylmN pycode n m) := by
  set L := generate_ynm_instructions ylmN pycode max 0 with hL
  have hlen : L.length = max := by rw [hL, gen_length]; omega
  have hn' : n < L.length := by omega
  have htake : (L.take n).flatten.length = n * n := by
    have := method_ynms_length ylmN pycode max n (le_of_lt hn)
    rwa [method_ynms, ← hL] at this
  have hsplit : L.flatten = (L.take n).flatten ++ (L.drop n).flatten := by
    rw [← List.flatten_append, List.take_append_drop]
  have hdrop : L.drop n = L.get ⟨n, hn'⟩ :: L.drop (n + 1) := by
    rw [List.get_eq_getElem]
    exact List.drop_eq_getElem_cons hn'
  have hbandlen : (L.get ⟨n, hn'⟩).length = 2 * (0 + n) + 1 :=
    gen_band_length ylmN pycode max 0 n hn'
  have hk : (m + n).toNat < (L.get ⟨n, hn'⟩).length := by
    rw [hbandlen]; omega
  rw [hsplit, List.getElem?_append_right (by omega)]
  have hidx : n * n + (m + n).toNat - (L.take n).flatten.length
      = (m + n).toNat := by omega
  rw [hidx, hdrop, List.flatten_cons,
    List.getElem?_append_left (by omega : (m + n).toNat <
      (L.get ⟨n, hn'⟩).length),
    List.getElem?_eq_getElem hk]
  have hentry := gen_entry ylmN pycode max 0 n (m + n).toNat hn'
    (by rw [List.get_eq_getElem] at hk ⊢; exact hk)
  rw [List.get_eq_getElem] at hentry
  rw [hentry]
  have hn0 : 0 + n = n := Nat.zero_add n
  rw [hn0]
  have harg : (((m + (n : Int)).toNat : Int)) - ((n : Nat) : Int) = m := by
    omega
  rw [harg]

/-! ### Claim theorems: ordering and the degree-0 broadcast -/

/-- C3: the instruction table is ordered degree-major then order-minor:
band `i` is degree `start_degree + i` (degrees increasing along the outer
list), slot `j` inside that band is order `m = j - n` (orders ascending
from `-n` to `n`); consequently, for a table starting at degree 0, the
flattened output position `n * n + (m + n)` holds exactly the instruction
of the pair `(n, m)`. -/
theorem generate_ynm_instructions_ordering (ylmN : Nat → Int → SymExpr)
    (pycode : SymExpr → String) (max start : Nat) :
    (∀ i (hi : i < (generate_ynm_instructions ylmN pycode max
          start).length)
        j (hj : j < ((generate_ynm_instructions ylmN pycode max
          start).get ⟨i, hi⟩).length),
        ((generate_ynm_instructions ylmN pycode max start).get ⟨i, hi⟩).get
            ⟨j, hj⟩
          = ynm_instruction ylmN pycode (start + i)
              ((j : Int) - ((start + i : Nat) : Int))) ∧
    (∀ (n : Nat) (m : Int), n < max → -(n : Int) ≤ m → m ≤ (n : Int) →
        ((generate_ynm_instructions ylmN pycode max 0).flatten)[n * n +
            (m + n).toNat]?
          = some (ynm_instruction ylmN pycode n m)) :=
  ⟨fun i hi j hj => gen_entry ylmN pycode max start i j hi hj,
   fun n m hn hm1 hm2 => gen_flatten_entry ylmN pycode max n m hn hm1 hm2⟩

/-- Witness for C3: position `1*1 + (-1+1) = 1` of the flattened table for
`max = 2` holds the instruction of the pair `(n, m) = (1, -1)`. -/
theorem generate_ynm_instructions_ordering_witness :
    ((generate_ynm_instructions (fun _ _ => SymExpr.const 0) (fun _ => "")
        2 0).flatten)[1 * 1 + ((-1 : Int) + (1 : Nat)).toNat]?
      = some (ynm_instruction (fun _ _ => SymExpr.const 0) (fun _ => "")
          1 (-1)) :=
  (generate_ynm_instructions_ordering (fun _ _ => SymExpr.const 0)
    (fun _ => "") 2 0).2 1 (-1) (by decide) (by decide) (by decide)

/-- C4: an instruction is wrapped in the batch-shape broadcast
`xyz.new_tensor(...).expand(xyz.shape[:-1])` exactly when its degree is 0;
instructions of every degree `n ≥ 1` are the bare serialized expression. -/
theorem degree_zero_broadcast_wrapping (ylmN : Nat → Int → SymExpr)
    (pycode : SymExpr → String) (max start i j : Nat)
    (hi : i < (generate_ynm_instructions ylmN pycode max start).length)
    (hj : j < ((generate_ynm_instructions ylmN pycode max start).get
      ⟨i, hi⟩).length) :
    (start + i = 0 →
      ((generate_ynm_instructions ylmN pycode max start).get ⟨i, hi⟩).get
          ⟨j, hj⟩
        = "xyz.new_tensor(" ++ pycode (_substitute (ylmN 0 (j : Int))) ++
            ").expand(xyz.shape[:-1])") ∧
    (start + i ≠ 0 →
      ((generate_ynm_instructions ylmN pycode max start).get ⟨i, hi⟩).get
          ⟨j, hj⟩
        = pycode (_substitute (ylmN (start + i)
            ((j : Int) - ((start + i : Nat) : Int))))) := by
  have hentry := gen_entry ylmN pycode max start i j hi hj
  constructor
  · intro h0
    rw [hentry, h0, ynm_instruction]
    simp
  · intro hne
    rw [hentry, ynm_instruction]
    simp only [hne, if_false, ite_false]

/-- Witness for C4: in the table for `max = 2, start = 0`, the single
degree-0 instruction is broadcast-wrapped. -/
theorem degree_zero_broadcast_wrapping_witness :
    ((generate_ynm_instructions (fun _ _ => SymExpr.const 0) (fun _ => "")
        2 0).get ⟨0, by decide⟩).get ⟨0, by decide⟩
      = "xyz.new_tensor(" ++ (fun (_ : SymExpr) => "")
          (_substitute ((fun (_ : Nat) (_ : Int) => SymExpr.const 0) 0
            ((0 : Nat) : Int))) ++ ").expand(xyz.shape[:-1])" :=
  (degree_zero_broadcast_wrapping (fun _ _ => SymExpr.const 0)
    (fun _ => "") 2 0 0 0 (by decide) (by decide)).1 (by decide)

/-! ### Claim theorems: counts and truncation -/

/-- C2: for `start_degree ≤ max_degree`, `generate_ynm_instructions`
returns exactly `max_degree - start_degree` bands, and band `i` holds
exactly `2 * (start_degree + i) + 1` instruction strings. -/
theorem generate_ynm_instructions_counts (ylmN : Nat → Int → SymExpr)
    (pycode : SymExpr → String) (start max : Nat) (h : start ≤ max) :
    (generate_ynm_instructions ylmN pycode max start).length = max - start ∧
    ∀ i (hi : i < (generate_ynm_instructions ylmN pycode max start).length),
      ((generate_ynm_instructions ylmN pycode max start).get ⟨i, hi⟩).length
        = 2 * (start + i) + 1 := by
  exact ⟨gen_length ylmN pycode max start,
    fun i hi => gen_band_length ylmN pycode max start i hi⟩

/-- Witness for C2 at the concrete arguments `start = 1`, `max = 3`. -/
theorem generate_ynm_instructions_counts_witness :
    (generate_ynm_instructions (fun _ _ => SymExpr.const 0) (fun _ => "")
      3 1).length = 3 - 1 :=
  (generate_ynm_instructions_counts (fun _ _ => SymExpr.const 0)
    (fun _ => "") 1 3 (by decide)).1

/-- C1: for a table derived for degrees starting at 0 and any degree `d`
with `1 ≤ d ≤` table length, the routine built by `generate_ynm_method`
stacks exactly `d * d` instruction expressions (the flattened list
`method_ynms` joined into the `torch.stack` call). -/
theorem generate_ynm_method_stacks_degree_sq (ylmN : Nat → Int → SymExpr)
    (pycode : SymExpr → String) (max d : Nat) (h1 : 1 ≤ d)
    (h2 : d ≤ (generate_ynm_instructions ylmN pycode max 0).length) :
    (method_ynms (generate_ynm_instructions ylmN pycode max 0) d).length
      = d * d := by
  refine method_ynms_length ylmN pycode max d ?_
  have := gen_length ylmN pycode max 0
  omega

/-- Witness for C1 at the concrete arguments `max = 3`, `d = 2`. -/
theorem generate_ynm_method_stacks_degree_sq_witness :
    (method_ynms
      (generate_ynm_instructions (fun _ _ => SymExpr.const 0) (fun _ => "")
        3 0) 2).length = 2 * 2 :=
  generate_ynm_method_stacks_degree_sq (fun _ _ => SymExpr.const 0)
    (fun _ => "") 3 2 (by decide) (by decide)

/-- C10: when the requested degree exceeds the number of bands, the slice
`ynm_instr[:degree]` silently truncates: `generate_ynm_method` raises no
error, stacks exactly the instructions of all available bands, and the
stacked-output count `max * max` falls short of `d * d`. -/
theorem generate_ynm_method_truncates_silently (ylmN : Nat → Int → SymExpr)
    (pycode : SymExpr → String) (max d : Nat)
    (hd : (generate_ynm_instructions ylmN pycode max 0).length < d) :
    (∀ t : List (List String), t.length ≤ d →
      method_ynms t d = t.flatten) ∧
    method_ynms (generate_ynm_instructions ylmN pycode max 0) d
      = (generate_ynm_instructions ylmN pycode max 0).flatten ∧
    (method_ynms (generate_ynm_instructions ylmN pycode max 0) d).length
      = max * max ∧
    max * max < d * d := by
  have hlen := gen_length ylmN pycode max 0
  have hmax : max < d := by omega
  have htrunc : ∀ t : List (List String), t.length ≤ d →
      method_ynms t d = t.flatten := by
    intro t ht
    rw [method_ynms, List.take_of_length_le ht]
  have heq : method_ynms (generate_ynm_instructions ylmN pycode max 0) d
      = (generate_ynm_instructions ylmN pycode max 0).flatten :=
    htrunc _ (by omega)
  have hfull : (method_ynms (generate_ynm_instructions ylmN pycode max 0)
      d).length = max * max := by
    have hm := method_ynms_length ylmN pycode max max (le_refl max)
    have heq2 : method_ynms (generate_ynm_instructions ylmN pycode max 0) max
        = (generate_ynm_instructions ylmN pycode max 0).flatten := by
      rw [method_ynms, List.take_of_length_le (by omega)]
    rw [heq, ← heq2, hm]
  refine ⟨htrunc, heq, hfull, ?_⟩
  exact Nat.mul_lt_mul_of_lt_of_lt hmax hmax

/-- Witness for C10 at the concrete arguments `max = 1`, `d = 2`. -/
theorem generate_ynm_method_truncates_silently_witness :
    method_ynms
      (generate_ynm_instructions (fun _ _ => SymExpr.const 0) (fun _ => "")
        1 0) 2
      = (generate_ynm_instructions (fun _ _ => SymExpr.const 0)
          (fun _ => "") 1 0).flatten :=
  (generate_ynm_method_truncates_silently (fun _ _ => SymExpr.const 0)
    (fun _ => "") 1 2 (by decide)).2.1

/-- C8: the derivation is deterministic — a pure function of its integer
arguments and of the external provider's output (given extensionally equal
providers and serializers, the instruction tables are identical). -/
theorem generate_ynm_instructions_deterministic
    (ylmN1 ylmN2 : Nat → Int → SymExpr) (pycode1 pycode2 : SymExpr → String)
    (max start : Nat) (hy : ∀ n m, ylmN1 n m = ylmN2 n m)
    (hp : ∀ e, pycode1 e = pycode2 e) :
    generate_ynm_instructions ylmN1 pycode1 max start
      = generate_ynm_instructions ylmN2 pycode2 max start := by
  have hy' : ylmN1 = ylmN2 := funext fun n => funext fun m => hy n m
  have hp' : pycode1 = pycode2 := funext hp
  rw [hy', hp']

/-- Witness for C8 at concrete (extensionally equal) providers. -/
theorem generate_ynm_instructions_deterministic_witness :
    generate_ynm_instructions (fun _ _ => SymExpr.const 0) (fun _ => "") 2 0
      = generate_ynm_instructions (fun _ _ => SymExpr.const 0) (fun _ => "")
          2 0 :=
  generate_ynm_instructions_deterministic _ _ _ _ 2 0 (fun _ _ => rfl)
    (fun _ => rfl)

/-! ### Claim theorems: document assembly, CLI path and the import guard -/

theorem foldl_append_eq_map (f : Nat → String) (l : List Nat) :
    ∀ init : List String,
      l.foldl (fun acc d => acc ++ [f d]) init = init ++ l.map f := by
  induction l with
  | nil => intro init; simp
  | cons a t ih => intro init; simp [ih]

/-- C5: a generated document is the header comment block and the import
preamble, each exactly once and at the front, followed by one routine per
requested degree in the order given (so a repeated degree yields a repeated
routine definition), each routine's text embedding its degree in the
generated `rsh_cart_{degree}` name. -/
theorem generate_ynm_file_structure (ynm_instr : List (List String))
    (degrees : List Nat) :
    generate_ynm_file ynm_instr degrees
      = String.intercalate "\n"
          (header_tpl :: import_tpl ::
            degrees.map (fun d => generate_ynm_method ynm_instr d)) ∧
    (∀ d : Nat, ∃ rest : String,
      generate_ynm_method ynm_instr d
        = "\ndef rsh_cart_" ++ toString d ++ rest) := by
  constructor
  · rw [generate_ynm_file, foldl_append_eq_map]
    rfl
  · intro d
    refine ⟨"(xyz:torch.Tensor):\n    " ++ apos ++ apos ++ apos ++
      "Computes all real spherical harmonics up to " ++ toString d ++
      " degree.\n\n    This is an autogenerated method. See\n    https://github.com/cheind/torch-spherical-harmonics\n    for more information.\n\n    Params:\n        xyz: (N,...,3) tensor of points on the unit sphere\n    \n    Returns:\n        rsh: (N,...,K) real spherical harmonics projections of input.\n    "
      ++ apos ++ apos ++ apos ++
      "\n\n    x = xyz[...,0]\n    y = xyz[...,1]\n    z = xyz[...,2]\n\n    x2=x**2\n    y2=y**2\n    z2=z**2\n    xy=x*y\n    xz=x*z\n    yz=y*z\n\n    return torch.stack(\n        ["
      ++ String.intercalate "," (method_ynms ynm_instr d) ++
      "]\n        ,-1\n    )    \n", ?_⟩
    simp only [generate_ynm_method, method_tpl, String.append_assoc]

/-- C7: the standalone CLI generation path always emits exactly the
routines for degrees 2, 4 and 8 (from the table derived with
`max_degree = 8`), whatever string the parsed `-n`/`--degree` flag holds:
the flag value is never read by the generation path. -/
theorem cli_ignores_degree_flag (ylmN : Nat → Int → SymExpr)
    (pycode : SymExpr → String) (flag1 flag2 : String) :
    main_emitted_document ylmN pycode flag1
      = main_emitted_document ylmN pycode flag2 ∧
    main_emitted_document ylmN pycode flag1
      = String.intercalate "\n"
          [header_tpl, import_tpl,
           generate_ynm_method (generate_ynm_instructions ylmN pycode 8 0) 2,
           generate_ynm_method (generate_ynm_instructions ylmN pycode 8 0) 4,
           generate_ynm_method (generate_ynm_instructions ylmN pycode 8 0)
             8] := by
  refine ⟨rfl, ?_⟩
  rw [main_emitted_document, generate_ynm_file, foldl_append_eq_map]
  rfl

/-- C9: when the closed-form symbolic provider is unavailable, loading the
module fails fatally with a message naming the installable `sympy` package
(`pip install sympy`), and no module API — hence no derivation function —
is ever produced. -/
theorem sympy_import_guard :
    load_codegen false = Except.error sympy_import_error ∧
    (∀ api : CodegenModule, load_codegen false ≠ Except.ok api) ∧
    (∃ pre post : String,
      sympy_import_error = pre ++ "pip install sympy" ++ post) := by
  refine ⟨rfl, fun api h => by simp [load_codegen] at h, ?_⟩
  exact ⟨"Failed to import sympy\n. You need `",
    "` for this part of the code.", rfl⟩

/-! ### Claim theorems: soundness of the monomial substitution -/

theorem subsLookup_const (q : ℚ) : subsLookup (.const q) = none := rfl

theorem subsLookup_var (v : SymVar) : subsLookup (.var v) = none := rfl

theorem subsLookup_add (a b : SymExpr) : subsLookup (.add a b) = none := rfl

theorem substitute_const (q : ℚ) : _substitute (.const q) = .const q := rfl

theorem substitute_var (v : SymVar) : _substitute (.var v) = .var v := rfl

theorem substitute_add (a b : SymExpr) :
    _substitute (.add a b) = .add (_substitute a) (_substitute b) := rfl

theorem substitute_mul (a b : SymExpr) :
    _substitute (.mul a b)
      = (subsLookup (.mul a b)).getD
          (.mul (_substitute a) (_substitute b)) := rfl

theorem substitute_pow (a : SymExpr) (n : Nat) :
    _substitute (.pow a n)
      = (subsLookup (.pow a n)).getD (.pow (_substitute a) n) := rfl

theorem subsLookup_eval (env : SymVar → ℚ) (hc : consistentEnv env)
    (e r : SymExpr) (hfind : subsLookup e = some r) :
    r.eval env = e.eval env := by
  obtain ⟨h1, h2, h3, h4, h5, h6⟩ := hc
  simp only [subsLookup, _subs, List.find?] at hfind
  repeat' split at hfind
  all_goals (try simp at hfind)
  all_goals simp_all only [decide_eq_true_eq]
  all_goals subst_vars
  all_goals simp [SymExpr.eval, pow_two, h1, h2, h3, h4, h5, h6]

/-- C6: the monomial substitution pass is value-preserving — for every
harmonic expression and every numeric point at which the six fresh symbols
carry the values of the monomials they abbreviate (`x2 = x*x`, …,
`yz = y*z`), the expression evaluates to the same number before and after
`_substitute`. -/
theorem substitution_preserves_value (env : SymVar → ℚ)
    (hc : consistentEnv env) (e : SymExpr) :
    (_substitute e).eval env = e.eval env := by
  induction e with
  | const q => rw [substitute_const]
  | var v => rw [substitute_var]
  | add a b iha ihb =>
    rw [substitute_add]
    simp only [SymExpr.eval, iha, ihb]
  | mul a b iha ihb =>
    rw [substitute_mul]
    cases hfind : subsLookup (.mul a b) with
    | some r =>
      rw [Option.getD_some]
      exact subsLookup_eval env hc _ r hfind
    | none =>
      rw [Option.getD_none]
      simp only [SymExpr.eval, iha, ihb]
  | pow a n iha =>
    rw [substitute_pow]
    cases hfind : subsLookup (.pow a n) with
    | some r =>
      rw [Option.getD_some]
      exact subsLookup_eval env hc _ r hfind
    | none =>
      rw [Option.getD_none]
      simp only [SymExpr.eval, iha]

/-- A concrete consistent environment: `x = 2, y = 3, z = 5` with the six
substitution symbols bound to the corresponding monomial values. -/
def envW : SymVar → ℚ := fun v =>
  match v with
  | .x => 2 | .y => 3 | .z => 5
  | .x2 => 4 | .y2 => 9 | .z2 => 25
  | .xy => 6 | .xz => 10 | .yz => 15

/-- Witness for C6 at the concrete expression `x * y` and the concrete
consistent environment `envW`. -/
theorem substitution_preserves_value_witness :
    consistentEnv envW ∧
    (_substitute (SymExpr.mul (.var .x) (.var .y))).eval envW
      = (SymExpr.mul (.var .x) (.var .y)).eval envW :=
  ⟨by unfold consistentEnv; refine ⟨?_, ?_, ?_, ?_, ?_, ?_⟩ <;> norm_num [envW],
   substitution_preserves_value envW
     (by unfold consistentEnv
         refine ⟨?_, ?_, ?_, ?_, ?_, ?_⟩ <;> norm_num [envW]) _⟩

end Codegen
